import Mathlib

/-!
Verification development for the Gantt-Maker repository.

The algorithmic core specified for this repository — building a task
dependency graph from flat records, propagating start dates, and
computing the critical path — is exercised by the repository's tests
(`test_ganttmaker.py::test_Task`) and described by the design document,
while `ganttmaker.py` itself contains only the rendering pipeline.
The graph/scheduling definitions below are therefore modelled from the
spec (each such definition says so in its doc comment); the `Figure.draw`
guard logic and the `RenderMetrics` class-attribute behaviour are
embedded directly from `ganttmaker.py`.

Dates are embedded as `Int` day numbers (a calendar date's ordinal);
comparing, subtracting and taking maxima of dates corresponds exactly
to the same operations on the day numbers.
-/

/-- One input row: id, planned end date, actual end date, description and the
raw `;`-delimited predecessor field, as described in spec §6. -/
structure TaskRecord where
  id : String
  planned_end : Int
  actual_end : Int
  description : String
  predecessor_field : String
deriving DecidableEq, Repr

/-- Modelled from the spec: §3's GTask node. `parents`/`children` are held as
id lists (spec §9 re-expresses the mutual object references as an id-keyed
edge table). `resolved_start` is kept outside the node, in the map returned
by `resolve`. -/
structure GTask where
  id : String
  planned_end : Int
  actual_end : Int
  description : String
  parents : List String
  children : List String
deriving DecidableEq, Repr

/-- Modelled from the spec: §3's Graph, the collection of Tasks in input
order; the id lookup is `findTask`. -/
structure Graph where
  tasks : List GTask
deriving DecidableEq, Repr

/-- The error taxonomy of spec §7, plus the `ValueError` raised by
`Figure.draw` (ganttmaker.py lines 602-608). -/
inductive GanttError where
  | duplicateTask (id : String)
  | unknownPredecessor (id : String)
  | cyclicDependency (id : String)
  | unresolvableSchedule (id : String)
  | invalidDuration (id : String)
  | valueError (msg : String)
deriving DecidableEq, Repr

/-- Split a character list on the `;` delimiter, mirroring Python's
`str.split(';')` (so `""` yields `[""]` and `";"` yields `["", ""]`). -/
def splitOnSemi : List Char → List (List Char)
  | [] => [[]]
  | c :: rest =>
    if c = ';' then [] :: splitOnSemi rest
    else
      match splitOnSemi rest with
      | [] => [[c]]
      | g :: gs => (c :: g) :: gs

/-- Modelled from the spec: parsing of a record's raw predecessor field
(spec §6): the empty string or the literal `"nan"` is the missing-value
sentinel and denotes no predecessors; otherwise the field is split on `;`
and empty fragments are dropped (spec §4.1 second pass, "for each
non-empty id"). -/
def parse_pred_ids (field : String) : List String :=
  if field = "" ∨ field = "nan" then []
  else ((splitOnSemi field.toList).map (fun cs => String.mk cs)).filter (fun s => s != "")

/-- Drop repeated ids, keeping the first occurrence of each. Used for the
deduplicated edge attachment of spec §4.1. -/
def dedup_keep_first : List String → List String
  | [] => []
  | x :: xs => x :: (dedup_keep_first xs).filter (fun y => y != x)

/-- Modelled from the spec: the children of the task with id `pid` are the
records (in input order) whose parsed predecessor list references `pid`
(spec §4.1: referenced task is parent, current task is child). -/
def child_ids_for (recs : List TaskRecord) (pid : String) : List String :=
  (recs.filter (fun r => (parse_pred_ids r.predecessor_field).contains pid)).map (fun r => r.id)

/-- Modelled from the spec: the GTask constructed for one record, with its
edges attached (parents deduplicated per spec §4.1). -/
def mkTask (recs : List TaskRecord) (r : TaskRecord) : GTask :=
  { id := r.id
    planned_end := r.planned_end
    actual_end := r.actual_end
    description := r.description
    parents := dedup_keep_first (parse_pred_ids r.predecessor_field)
    children := child_ids_for recs r.id }

/-- Modelled from the spec: one GTask per record, in input order. -/
def buildNodes (recs : List TaskRecord) : List GTask :=
  recs.map (mkTask recs)

/-- First id that repeats an earlier record's id, scanning in input order
(`seen` accumulates the ids already passed). Drives `DuplicateTaskError`. -/
def firstDup : List String → List TaskRecord → Option String
  | _, [] => none
  | seen, r :: rs => if seen.contains r.id then some r.id else firstDup (seen ++ [r.id]) rs

/-- First referenced predecessor id (scanning records in input order, each
record's parsed list left to right) that matches no record id. Drives
`UnknownPredecessorError`. -/
def firstUnknown (recs : List TaskRecord) : Option String :=
  recs.findSome? (fun r =>
    (parse_pred_ids r.predecessor_field).find? (fun p => !(recs.any (fun q => q.id == p))))

/-- The Graph's id lookup. -/
def findTask (g : Graph) (id : String) : Option GTask :=
  g.tasks.find? (fun t => t.id == id)

/-- Child ids of the task with the given id (empty for an unknown id). -/
def child_ids (g : Graph) (id : String) : List String :=
  match findTask g id with
  | some t => t.children
  | none => []

/-- Ids of the tasks with no parents, in input order. -/
def root_ids (g : Graph) : List String :=
  (g.tasks.filter (fun t => t.parents.isEmpty)).map (fun t => t.id)

/-- Modelled from the spec: depth-first traversal along child edges used by
the cycle check of spec §4.1; reports a task found on the current path.
The fuel bounds the depth; `build` supplies one more than the number of
tasks, which a repeat-free path can never exhaust. -/
def cycle_dfs (g : Graph) : Nat → List String → String → Option String
  | 0, _, _ => none
  | n+1, path, id =>
    if path.contains id then some id
    else (child_ids g id).findSome? (fun c => cycle_dfs g n (path ++ [id]) c)

/-- Modelled from the spec: the cycle check of spec §4.1 — a depth-first
traversal started from every task that has no parents. -/
def cycle_check (g : Graph) : Option String :=
  (root_ids g).findSome? (fun r => cycle_dfs g (g.tasks.length + 1) [] r)

/-- Modelled from the spec: GraphBuilder.build (spec §4.1). Uniqueness of
ids, then resolution of predecessor references, then the cycle check. -/
def build (recs : List TaskRecord) : Except GanttError Graph :=
  match firstDup [] recs with
  | some i => .error (.duplicateTask i)
  | none =>
    match firstUnknown recs with
    | some p => .error (.unknownPredecessor p)
    | none =>
      match cycle_check ⟨buildNodes recs⟩ with
      | some c => .error (.cyclicDependency c)
      | none => .ok ⟨buildNodes recs⟩

/-- Maximum of a list of integers (0 for the empty list; the empty case is
never used on a meaningful branch). -/
def intMax : List Int → Int
  | [] => 0
  | [x] => x
  | x :: y :: xs => max x (intMax (y :: xs))

/-- Actual end date of the task with the given id (0 for an unknown id). -/
def actual_end_of (g : Graph) (id : String) : Int :=
  match findTask g id with
  | some t => t.actual_end
  | none => 0

/-- Modelled from the spec: the start date assigned to a task by
ScheduleResolver (spec §4.2): the project start for a task with no
parents, otherwise the maximum actual end date among its parents. -/
def resolved_start_of (g : Graph) (ps : Int) (t : GTask) : Int :=
  if t.parents.isEmpty then ps
  else intMax (t.parents.map (actual_end_of g))

/-- Modelled from the spec: the layered closure of topological-order
propagation (spec §4.2): after `n+1` rounds a task is resolvable exactly
when every parent was resolvable after `n` rounds. A task is resolved by
the propagation iff its id appears after as many rounds as there are
tasks. -/
def resolvableAfter (g : Graph) : Nat → List String
  | 0 => []
  | n+1 =>
    (g.tasks.filter (fun t => t.parents.all (fun p => (resolvableAfter g n).contains p))).map
      (fun t => t.id)

/-- Modelled from the spec: ScheduleResolver.resolve (spec §4.2 and §7).
Propagation in topological order assigns each task `resolved_start_of`;
if some task is never reached the resolver fails with
`UnresolvableScheduleError`; a task whose actual end precedes its resolved
start is a negative duration, reported as `InvalidDurationError` rather
than clamped (spec §7). On success the resolved start dates are returned
as an id-keyed list in input order. -/
def resolve (g : Graph) (ps : Int) : Except GanttError (List (String × Int)) :=
  match g.tasks.find? (fun t => !((resolvableAfter g g.tasks.length).contains t.id)) with
  | some t => .error (.unresolvableSchedule t.id)
  | none =>
    match g.tasks.find? (fun t => decide (t.actual_end < resolved_start_of g ps t)) with
    | some t => .error (.invalidDuration t.id)
    | none => .ok (g.tasks.map (fun t => (t.id, resolved_start_of g ps t)))

/-- Resolved start date recorded for an id in the output of `resolve`. -/
def lookupRes (m : List (String × Int)) (id : String) : Option Int :=
  match m.find? (fun q => q.fst == id) with
  | some q => some q.snd
  | none => none

/-- A task's elapsed duration: actual end minus resolved start (spec §4.2). -/
def dur_of (g : Graph) (ps : Int) (t : GTask) : Int :=
  t.actual_end - resolved_start_of g ps t

/-- Duration keyed by id (0 for an unknown id). -/
def dur_of_id (g : Graph) (ps : Int) (id : String) : Int :=
  match findTask g id with
  | some t => dur_of g ps t
  | none => 0

/-- Modelled from the spec: the longest-chain duration of spec §4.2,
`duration(task) + max(longest_chain_duration(parent), default 0)`,
computed with enough fuel for the recursion over parents to bottom out at
the roots. -/
def lcdFuel (g : Graph) (ps : Int) : Nat → String → Int
  | 0, _ => 0
  | n+1, id =>
    match findTask g id with
    | none => 0
    | some t =>
      if t.parents.isEmpty then dur_of g ps t
      else dur_of g ps t + intMax (t.parents.map (fun p => lcdFuel g ps n p))

/-- Longest-chain duration with the fuel `build`/`critical_path` use. -/
def lcd (g : Graph) (ps : Int) (id : String) : Int :=
  lcdFuel g ps (g.tasks.length + 1) id

/-- Modelled from the spec: the retained max-parent backlink of spec §4.2 —
among the parents achieving the maximal longest-chain duration, the one
appearing earliest in the original input order. -/
def retained_parent (g : Graph) (ps : Int) (t : GTask) : Option String :=
  if t.parents.isEmpty then none
  else ((g.tasks.filter (fun u => t.parents.contains u.id)).map (fun u => u.id)).find?
    (fun p => lcd g ps p == intMax (t.parents.map (lcd g ps)))

/-- Modelled from the spec: reconstruction of the critical path by
following retained backlinks from a task to a root, then listing the ids
root first (spec §4.2). -/
def chainFrom (g : Graph) (ps : Int) : Nat → String → List String
  | 0, id => [id]
  | n+1, id =>
    match findTask g id with
    | none => [id]
    | some t =>
      match retained_parent g ps t with
      | none => [id]
      | some p => chainFrom g ps n p ++ [id]

/-- Ids of the tasks with no children (leaves/sinks), in input order. -/
def leaf_ids (g : Graph) : List String :=
  (g.tasks.filter (fun t => t.children.isEmpty)).map (fun t => t.id)

/-- Modelled from the spec: critical-path computation (spec §4.2): take the
task with the globally maximal longest-chain duration among the leaves
(ties broken by input order) and follow the retained backlinks to a root;
the empty graph yields the empty sequence. -/
def critical_path (g : Graph) (ps : Int) : List String :=
  match (leaf_ids g).find? (fun id => lcd g ps id == intMax ((leaf_ids g).map (lcd g ps))) with
  | some id => chainFrom g ps (g.tasks.length + 1) id
  | none => []

/-- Parent-to-child adjacency between ids: `a` is listed among the parents
of the task with id `b`. -/
def adjB (g : Graph) (a b : String) : Bool :=
  match findTask g b with
  | some t => t.parents.contains a
  | none => false

/-- The ids form a chain of parent-to-child edges. -/
def chainB (g : Graph) : List String → Bool
  | [] => true
  | [_] => true
  | a :: b :: rest => adjB g a b && chainB g (b :: rest)

/-- The id names a task with no parents. -/
def is_root_id (g : Graph) (id : String) : Bool :=
  match findTask g id with
  | some t => t.parents.isEmpty
  | none => false

/-- The id names a task with no children. -/
def is_leaf_id (g : Graph) (id : String) : Bool :=
  match findTask g id with
  | some t => t.children.isEmpty
  | none => false

/-- The id names a task of the graph. -/
def member_id (g : Graph) (id : String) : Bool :=
  (findTask g id).isSome

/-- A root-to-leaf path through the dependency graph: a nonempty chain of
parent-to-child edges over task ids whose first task has no parents and
whose last task has no children (spec §4.2 / glossary). -/
def root_to_leaf (g : Graph) (l : List String) : Bool :=
  !l.isEmpty && chainB g l && l.all (member_id g) &&
    is_root_id g (l.headD "") && is_leaf_id g (l.getLastD "")

/-- Total elapsed duration along a list of task ids (spec §4.2). -/
def path_total (g : Graph) (ps : Int) (l : List String) : Int :=
  (l.map (dur_of_id g ps)).sum

/-- The second id is reachable from the first by following one or more
child edges. -/
inductive Reaches (g : Graph) : String → String → Prop
  | step : ∀ {a b : String}, b ∈ child_ids g a → Reaches g a b
  | trans : ∀ {a b c : String}, b ∈ child_ids g a → Reaches g b c → Reaches g a c

/-- Modelled from the spec: the `ganttmaker.Task` object constructed by
`test_ganttmaker.py::test_Task` (the class itself is not in the rendering
module). Fields follow the test's constructor; `parents` and `children`
start empty and hold task numbers (spec §3, §9). -/
structure TaskObj where
  task_no : String
  start : Int
  end_date : Int
  description : String
  predecessor : String
  parents : List String
  children : List String
deriving DecidableEq, Repr

/-- Modelled from the spec: construction of a `ganttmaker.Task` as in the
test: edges start empty. -/
def mkTaskObj (task_no : String) (start end_date : Int) (description predecessor : String) :
    TaskObj :=
  { task_no := task_no, start := start, end_date := end_date,
    description := description, predecessor := predecessor,
    parents := [], children := [] }

/-- Modelled from the spec: `Task.with_children` — the mutual, symmetric
edge attachment of spec §3: adding B as child of A appends B to A's
children and A to B's parents, and adding an already-present edge is a
no-op (spec §4.1, §8 "idempotent add"). -/
def with_children (a b : TaskObj) : TaskObj × TaskObj :=
  ( if a.children.contains b.task_no then a
    else { a with children := a.children ++ [b.task_no] }
  , if b.parents.contains a.task_no then b
    else { b with parents := b.parents ++ [a.task_no] } )

/-- Modelled from the spec: `Task.without_children` — the symmetric
detachment: removes B from A's children and A from B's parents
(spec §3, §8 round-trip property). -/
def without_children (a b : TaskObj) : TaskObj × TaskObj :=
  ( { a with children := a.children.erase b.task_no }
  , { b with parents := b.parents.erase a.task_no } )

/-- The inputs `Figure.draw` guards on (ganttmaker.py lines 472-478):
`start_date` and `canvas_size` both start out unset (`None`). -/
structure FigureState where
  start_date : Option Int
  canvas_size : Option (Int × Int)
deriving DecidableEq, Repr

/-- Guard prefix of `Figure.draw` (ganttmaker.py lines 602-608): a missing
start date raises `ValueError("start_date not set")`, then a missing
canvas size raises `ValueError("canvas_size not set")`; only afterwards is
the data processed and an image rendered, abstracted here by the arbitrary
`render` continuation applied to the checked inputs. -/
def draw (f : FigureState) (render : Int → Int × Int → Nat) : Except GanttError Nat :=
  match f.start_date with
  | none => .error (.valueError "start_date not set")
  | some sd =>
    match f.canvas_size with
    | none => .error (.valueError "canvas_size not set")
    | some cs => .ok (render sd cs)

/-- The class-level attributes of `RenderMetrics` (ganttmaker.py lines
22-32) with their source defaults. Python stores these on the class
object, shared by the whole process. -/
structure RenderMetricsCls where
  title_height : Int := 50
  title_padding : Int := 10
  vertical_padding : Int := 10
  horizontal_padding : Int := 5
  axis_width : Int := 20
  axis_height : Int := 20
  axis_padding : Int := 10
  min_task_height : Int := 20
  max_task_description_width : Int := 200
  legend_width : Int := 620
deriving DecidableEq, Repr

/-- The per-instance attribute dictionary of a `RenderMetrics()` instance:
a field is `some v` only once assigned on the instance; a fresh instance
(as created in `Figure.__init__`, line 478) has every field `none` and
reads fall through to the class attribute. -/
structure RenderMetricsInst where
  title_height : Option Int := none
  title_padding : Option Int := none
  vertical_padding : Option Int := none
  horizontal_padding : Option Int := none
  axis_width : Option Int := none
  axis_height : Option Int := none
  axis_padding : Option Int := none
  min_task_height : Option Int := none
  max_task_description_width : Option Int := none
  legend_width : Option Int := none
deriving DecidableEq, Repr

/-- A Figure as far as `RenderMetrics` is concerned: it holds its own
`RenderMetrics()` instance (ganttmaker.py line 478). -/
structure FigureModel where
  render_metrics : RenderMetricsInst
deriving DecidableEq, Repr

/-- Python attribute lookup for `title_height` on a figure's
`render_metrics`: the instance value if assigned, else the class
attribute. -/
def read_title_height (cls : RenderMetricsCls) (fig : FigureModel) : Int :=
  match fig.render_metrics.title_height with
  | some v => v
  | none => cls.title_height

/-- The `TitleProperties.font` setter (ganttmaker.py lines 271-277): after
storing the font it assigns `RenderMetrics.title_height = fontsize + 5`
on the class object. Only the class state changes; no instance dictionary
is touched. -/
def set_title_font (cls : RenderMetricsCls) (pointSize : Int) : RenderMetricsCls :=
  { cls with title_height := pointSize + 5 }

/-- The spec's §8 scenario: four tasks with `project_start` 2024-01-01; a
date is its offset in days from 2024-01-01, so the actual ends
2024-01-03, 2024-01-05, 2024-01-10, 2024-01-12 are days 2, 4, 9, 11, and
2024-01-10 is day 9. -/
def recs4 : List TaskRecord :=
  [ ⟨"1", 2, 2, "", ""⟩
  , ⟨"2", 4, 4, "", "1"⟩
  , ⟨"3", 9, 9, "", "1"⟩
  , ⟨"4", 11, 11, "", "2;3"⟩ ]

/-- The graph `build` produces for `recs4`. -/
def g4 : Graph := ⟨buildNodes recs4⟩

/-- The resolved start dates `resolve` produces for `recs4` from day 0. -/
def m4 : List (String × Int) := [("1", 0), ("2", 2), ("3", 2), ("4", 9)]

/-- The task node `build` constructs for record "4" of `recs4`. -/
def t4 : GTask :=
  { id := "4", planned_end := 11, actual_end := 11, description := ""
  , parents := ["2", "3"], children := [] }

/-- Two tasks listing each other as predecessor: the cycle of spec §8's
cycle scenario, in which no task is parentless. -/
def recsAB : List TaskRecord :=
  [ ⟨"A", 3, 3, "", "B"⟩, ⟨"B", 5, 5, "", "A"⟩ ]

/-- A cycle reachable from the parentless task "R". -/
def recsRAB : List TaskRecord :=
  [ ⟨"R", 1, 1, "", ""⟩, ⟨"A", 3, 3, "", "R;B"⟩, ⟨"B", 5, 5, "", "A"⟩ ]

/-- The spec's §8 two-root scenario: A and B are independent roots, C
depends on both. -/
def recsABC : List TaskRecord :=
  [ ⟨"A", 3, 3, "", ""⟩, ⟨"B", 5, 5, "", ""⟩, ⟨"C", 7, 7, "", "A;B"⟩ ]

/-- The graph `build` produces for `recsABC`. -/
def gABC : Graph := ⟨buildNodes recsABC⟩

/-- The resolved start dates for `recsABC` from day 0. -/
def mABC : List (String × Int) := [("A", 0), ("B", 0), ("C", 5)]

/-- The root task `build` constructs for record "A" of `recsABC`. -/
def tA : GTask :=
  { id := "A", planned_end := 3, actual_end := 3, description := ""
  , parents := [], children := ["C"] }

/-- A single record referencing the predecessor id "Z" that no record
carries. -/
def recsZ : List TaskRecord := [ ⟨"A", 3, 3, "", "Z"⟩ ]

/-- Records whose predecessor fields are the two missing-value sentinels. -/
def recsSent : List TaskRecord :=
  [ ⟨"X", 3, 3, "", "nan"⟩, ⟨"Y", 5, 5, "", ""⟩ ]

/-- A record listing the same predecessor twice. -/
def recsDD : List TaskRecord :=
  [ ⟨"1", 2, 2, "", ""⟩, ⟨"2", 4, 4, "", "1;1"⟩ ]

/-- The two task objects the repository's `test_Task` constructs (dates as
day offsets from 2021-01-01). -/
def task_1 : TaskObj := mkTaskObj "1.0" 0 1 "Do something" "2.1;2.2;2.3"

/-- Second task object of `test_Task`. -/
def task_2 : TaskObj := mkTaskObj "Task 2" 1 2 "Do something else" "3.1;3.2;3.3"

/-! Helper lemmas: lists, maxima, deduplication. -/

theorem contains_iff {l : List String} {a : String} : l.contains a = true ↔ a ∈ l :=
  List.elem_iff

theorem mem_le_intMax : ∀ {l : List Int} {a : Int}, a ∈ l → a ≤ intMax l := by
  intro l
  induction l with
  | nil => intro a h; cases h
  | cons x xs ih =>
    intro a h
    cases xs with
    | nil =>
      have : a = x := by simpa using h
      simp [intMax, this]
    | cons y ys =>
      rcases List.mem_cons.mp h with h1 | h2
      · simp [intMax, h1]
      · calc a ≤ intMax (y :: ys) := ih h2
          _ ≤ intMax (x :: y :: ys) := by
              simp [intMax]

theorem intMax_mem : ∀ {l : List Int}, l ≠ [] → intMax l ∈ l := by
  intro l
  induction l with
  | nil => intro h; exact absurd rfl h
  | cons x xs ih =>
    intro _
    cases xs with
    | nil => simp [intMax]
    | cons y ys =>
      have hx : intMax (x :: y :: ys) = max x (intMax (y :: ys)) := rfl
      rcases max_cases x (intMax (y :: ys)) with ⟨h1, _⟩ | ⟨h1, _⟩
      · rw [hx, h1]; exact List.mem_cons_self _ _
      · rw [hx, h1]
        exact List.mem_cons_of_mem _ (ih (by simp))

theorem mem_dedup_keep_first : ∀ {l : List String} {a : String},
    a ∈ dedup_keep_first l ↔ a ∈ l := by
  intro l
  induction l with
  | nil => intro a; simp [dedup_keep_first]
  | cons x xs ih =>
    intro a
    by_cases hax : a = x
    · subst hax
      simp [dedup_keep_first]
    · simp only [dedup_keep_first, List.mem_cons, List.mem_filter]
      constructor
      · rintro (h | ⟨h, _⟩)
        · exact Or.inl h
        · exact Or.inr (ih.mp h)
      · rintro (h | h)
        · exact Or.inl h
        · exact Or.inr ⟨ih.mpr h, by simpa using hax⟩

theorem nodup_dedup_keep_first : ∀ (l : List String), (dedup_keep_first l).Nodup := by
  intro l
  induction l with
  | nil => simp [dedup_keep_first]
  | cons x xs ih =>
    refine List.nodup_cons.mpr ⟨?_, List.Nodup.filter _ ih⟩
    intro hmem
    have := (List.mem_filter.mp hmem).2
    simp at this

/-! Helper lemmas: duplicate detection and graph-construction shape. -/

theorem firstDup_none : ∀ {seen : List String} {recs : List TaskRecord},
    firstDup seen recs = none →
    (recs.map (fun r => r.id)).Nodup ∧ ∀ r ∈ recs, r.id ∉ seen := by
  intro seen recs
  induction recs generalizing seen with
  | nil => intro _; exact ⟨List.nodup_nil, by simp⟩
  | cons r rs ih =>
    intro h
    by_cases hc : r.id ∈ seen
    · simp [firstDup, hc] at h
    · have hrec : firstDup (seen ++ [r.id]) rs = none := by
        simpa [firstDup, hc] using h
      obtain ⟨hnd, hseen⟩ := ih hrec
      refine ⟨List.nodup_cons.mpr ⟨?_, hnd⟩, ?_⟩
      · intro hmem
        obtain ⟨r2, hr2, hid⟩ := List.mem_map.mp hmem
        have := hseen r2 hr2
        simp [← hid] at this
      · intro r2 hr2
        rcases hr2 with _ | hr2
        · exact hc
        · intro hm
          exact hseen r2 (by assumption) (by simp [hm])

theorem build_ok_inv {recs : List TaskRecord} {g : Graph} (h : build recs = .ok g) :
    firstDup [] recs = none ∧ firstUnknown recs = none ∧
      g = ⟨buildNodes recs⟩ ∧ cycle_check ⟨buildNodes recs⟩ = none := by
  unfold build at h
  cases hd : firstDup [] recs with
  | some i => rw [hd] at h; cases h
  | none =>
    rw [hd] at h
    cases hu : firstUnknown recs with
    | some p => rw [hu] at h; cases h
    | none =>
      rw [hu] at h
      cases hcy : cycle_check ⟨buildNodes recs⟩ with
      | some c => rw [hcy] at h; cases h
      | none =>
        rw [hcy] at h
        cases h
        exact ⟨rfl, rfl, rfl, rfl⟩

theorem build_ok_tasks {recs : List TaskRecord} {g : Graph} (h : build recs = .ok g) :
    g.tasks = buildNodes recs := by
  rw [(build_ok_inv h).2.2.1]

/-! Helper lemmas: nodes constructed by `build` and the id lookup. -/

theorem mem_buildNodes {recs : List TaskRecord} {t : GTask} :
    t ∈ buildNodes recs ↔ ∃ r ∈ recs, mkTask recs r = t := by
  simp [buildNodes, List.mem_map]

theorem build_ok_nodup {recs : List TaskRecord} {g : Graph} (h : build recs = .ok g) :
    (g.tasks.map (fun t => t.id)).Nodup := by
  have hnd := (firstDup_none (build_ok_inv h).1).1
  rw [build_ok_tasks h]
  have hmap : (buildNodes recs).map (fun t => t.id) = recs.map (fun r => r.id) := by
    simp only [buildNodes, List.map_map]
    rfl
  rw [hmap]
  exact hnd

theorem findTask_of_mem {g : Graph} (hnd : (g.tasks.map (fun t => t.id)).Nodup)
    {t : GTask} (ht : t ∈ g.tasks) : findTask g t.id = some t := by
  unfold findTask
  cases hf : g.tasks.find? (fun u => u.id == t.id) with
  | none =>
    exfalso
    have := List.find?_eq_none.mp hf t ht
    simp at this
  | some u =>
    have hu := List.mem_of_find?_eq_some hf
    have hid : u.id = t.id := by simpa using List.find?_some hf
    rw [List.inj_on_of_nodup_map hnd hu ht hid]

theorem findTask_mem {g : Graph} {id : String} {t : GTask} (h : findTask g id = some t) :
    t ∈ g.tasks ∧ t.id = id := by
  refine ⟨List.mem_of_find?_eq_some h, ?_⟩
  simpa using List.find?_some h

theorem build_ok_preds_exist {recs : List TaskRecord} {g : Graph} (h : build recs = .ok g) :
    ∀ r ∈ recs, ∀ p ∈ parse_pred_ids r.predecessor_field, ∃ r2 ∈ recs, r2.id = p := by
  have hu := (build_ok_inv h).2.1
  unfold firstUnknown at hu
  rw [List.findSome?_eq_none_iff] at hu
  intro r hr p hp
  have h2 := List.find?_eq_none.mp (hu r hr) p hp
  simp only [Bool.not_eq_true, Bool.not_eq_false', List.any_eq_true] at h2
  obtain ⟨q, hq, hqid⟩ := h2
  exact ⟨q, hq, by simpa using hqid⟩

theorem mem_task_parents {recs : List TaskRecord} {t : GTask}
    (ht : t ∈ buildNodes recs) :
    ∃ r ∈ recs, t.id = r.id ∧ t.actual_end = r.actual_end ∧
      t.parents = dedup_keep_first (parse_pred_ids r.predecessor_field) ∧
      t.children = child_ids_for recs r.id := by
  obtain ⟨r, hr, hmk⟩ := mem_buildNodes.mp ht
  exact ⟨r, hr, by rw [← hmk]; rfl, by rw [← hmk]; rfl, by rw [← hmk]; rfl,
    by rw [← hmk]; rfl⟩

theorem parent_task_exists {recs : List TaskRecord} {g : Graph} (h : build recs = .ok g) :
    ∀ t ∈ g.tasks, ∀ p ∈ t.parents, ∃ u ∈ g.tasks, u.id = p := by
  intro t ht p hp
  rw [build_ok_tasks h] at ht ⊢
  obtain ⟨r, hr, _, _, hpar, _⟩ := mem_task_parents ht
  rw [hpar] at hp
  obtain ⟨r2, hr2, hid⟩ := build_ok_preds_exist h r hr p (mem_dedup_keep_first.mp hp)
  refine ⟨mkTask recs r2, ?_, hid⟩
  exact mem_buildNodes.mpr ⟨r2, hr2, rfl⟩

theorem mem_child_ids_for {recs : List TaskRecord} {pid c : String} :
    c ∈ child_ids_for recs pid ↔
      ∃ r ∈ recs, r.id = c ∧ pid ∈ parse_pred_ids r.predecessor_field := by
  unfold child_ids_for
  constructor
  · intro h
    obtain ⟨r, hr, hid⟩ := List.mem_map.mp h
    have := List.mem_filter.mp hr
    exact ⟨r, this.1, hid, contains_iff.mp this.2⟩
  · rintro ⟨r, hr, hid, hmem⟩
    exact List.mem_map.mpr ⟨r, List.mem_filter.mpr ⟨hr, contains_iff.mpr hmem⟩, hid⟩

theorem child_parent_link {recs : List TaskRecord} {g : Graph} (h : build recs = .ok g) :
    ∀ u ∈ g.tasks, ∀ c ∈ u.children, ∃ t ∈ g.tasks, t.id = c ∧ u.id ∈ t.parents := by
  intro u hu c hc
  rw [build_ok_tasks h] at hu ⊢
  obtain ⟨r, hr, hid, _, _, hch⟩ := mem_task_parents hu
  rw [hch] at hc
  obtain ⟨r2, hr2, hr2id, hpm⟩ := mem_child_ids_for.mp hc
  refine ⟨mkTask recs r2, mem_buildNodes.mpr ⟨r2, hr2, rfl⟩, hr2id, ?_⟩
  show u.id ∈ dedup_keep_first (parse_pred_ids r2.predecessor_field)
  rw [hid]
  exact mem_dedup_keep_first.mpr hpm

theorem parent_child_link {recs : List TaskRecord} {g : Graph} (h : build recs = .ok g) :
    ∀ t ∈ g.tasks, ∀ p ∈ t.parents, ∃ u ∈ g.tasks, u.id = p ∧ t.id ∈ u.children := by
  intro t ht p hp
  rw [build_ok_tasks h] at ht ⊢
  obtain ⟨r, hr, hid, _, hpar, _⟩ := mem_task_parents ht
  rw [hpar] at hp
  have hpm := mem_dedup_keep_first.mp hp
  obtain ⟨r2, hr2, hr2id⟩ := build_ok_preds_exist h r hr p hpm
  refine ⟨mkTask recs r2, mem_buildNodes.mpr ⟨r2, hr2, rfl⟩, hr2id, ?_⟩
  show t.id ∈ child_ids_for recs r2.id
  rw [hr2id, hid]
  exact mem_child_ids_for.mpr ⟨r, hr, rfl, hpm⟩

/-! Helper lemmas: the propagation closure and `resolve`. -/

theorem mem_resolvableAfter_succ {g : Graph} {n : Nat} {id : String} :
    id ∈ resolvableAfter g (n+1) ↔
      ∃ t ∈ g.tasks, t.id = id ∧ ∀ p ∈ t.parents, p ∈ resolvableAfter g n := by
  constructor
  · intro h
    simp only [resolvableAfter] at h
    obtain ⟨t, ht, hid⟩ := List.mem_map.mp h
    have hf := List.mem_filter.mp ht
    refine ⟨t, hf.1, hid, ?_⟩
    intro p hp
    exact contains_iff.mp (List.all_eq_true.mp hf.2 p hp)
  · rintro ⟨t, ht, hid, hall⟩
    simp only [resolvableAfter]
    exact List.mem_map.mpr
      ⟨t, List.mem_filter.mpr
        ⟨ht, List.all_eq_true.mpr (fun p hp => contains_iff.mpr (hall p hp))⟩, hid⟩

theorem resolve_ok_inv {g : Graph} {ps : Int} {m : List (String × Int)}
    (h : resolve g ps = .ok m) :
    (∀ t ∈ g.tasks, t.id ∈ resolvableAfter g g.tasks.length) ∧
    (∀ t ∈ g.tasks, resolved_start_of g ps t ≤ t.actual_end) ∧
    m = g.tasks.map (fun t => (t.id, resolved_start_of g ps t)) := by
  unfold resolve at h
  cases h1 : g.tasks.find? (fun t => !((resolvableAfter g g.tasks.length).contains t.id)) with
  | some t => rw [h1] at h; cases h
  | none =>
    rw [h1] at h
    cases h2 : g.tasks.find? (fun t => decide (t.actual_end < resolved_start_of g ps t)) with
    | some t => rw [h2] at h; cases h
    | none =>
      rw [h2] at h
      cases h
      refine ⟨?_, ?_, rfl⟩
      · intro t ht
        have h3 := List.find?_eq_none.mp h1 t ht
        simp only [Bool.not_eq_true, Bool.not_eq_false'] at h3
        exact contains_iff.mp h3
      · intro t ht
        have h3 := List.find?_eq_none.mp h2 t ht
        exact not_lt.mp (by simpa using h3)

theorem lookupRes_of_nodup {f : GTask → Int} :
    ∀ {l : List GTask}, (l.map (fun t => t.id)).Nodup → ∀ {t : GTask}, t ∈ l →
      lookupRes (l.map (fun u => (u.id, f u))) t.id = some (f t) := by
  intro l
  induction l with
  | nil => intro _ t ht; cases ht
  | cons x xs ih =>
    intro hnd t ht
    rcases List.mem_cons.mp ht with h1 | h2
    · subst h1
      simp [lookupRes, List.find?_cons_of_pos]
    · have hne : (x.id == t.id) = false := by
        have hx := (List.nodup_cons.mp hnd).1
        simp only [beq_eq_false_iff_ne, ne_eq]
        intro he
        apply hx
        show x.id ∈ List.map (fun t => t.id) xs
        rw [he]
        exact List.mem_map.mpr ⟨t, h2, rfl⟩
      have ihx := ih (List.nodup_cons.mp hnd).2 h2
      simp only [lookupRes, List.map_cons] at ihx ⊢
      rw [List.find?_cons_of_neg _ (by simp [hne])]
      exact ihx

theorem ps_le_resolved_start {recs : List TaskRecord} {g : Graph} {ps : Int}
    (hb : build recs = .ok g)
    (hdur : ∀ t ∈ g.tasks, resolved_start_of g ps t ≤ t.actual_end) :
    ∀ n, ∀ t ∈ g.tasks, t.id ∈ resolvableAfter g n → ps ≤ resolved_start_of g ps t := by
  intro n
  induction n with
  | zero =>
    intro t _ h0
    simp [resolvableAfter] at h0
  | succ n ih =>
    intro t ht hmem
    obtain ⟨t2, ht2, hid, hall⟩ := mem_resolvableAfter_succ.mp hmem
    have hteq : t2 = t := List.inj_on_of_nodup_map (build_ok_nodup hb) ht2 ht hid
    subst hteq
    by_cases hpe : t2.parents.isEmpty
    · simp [resolved_start_of, hpe]
    · unfold resolved_start_of
      rw [if_neg hpe]
      obtain ⟨p, hp⟩ : ∃ p, p ∈ t2.parents := by
        cases hpar : t2.parents with
        | nil => simp [hpar] at hpe
        | cons a l => exact ⟨a, List.mem_cons_self _ _⟩
      obtain ⟨u, hu, huid⟩ := parent_task_exists hb t2 ht p hp
      have hpu : actual_end_of g p = u.actual_end := by
        rw [← huid, actual_end_of, findTask_of_mem (build_ok_nodup hb) hu]
      have h1 : ps ≤ resolved_start_of g ps u := by
        apply ih u hu
        rw [huid]
        exact hall p hp
      have h2 : resolved_start_of g ps u ≤ u.actual_end := hdur u hu
      have h3 : u.actual_end ≤ intMax (t2.parents.map (actual_end_of g)) := by
        rw [← hpu]
        exact mem_le_intMax (List.mem_map.mpr ⟨p, hp, rfl⟩)
      linarith

/-- C1: for every graph that builds successfully and is then resolved
successfully against a project start date, every task with at least one
parent gets a resolved start equal to the maximum actual end date among
its direct parents, and that resolved start is never earlier than the
project start date. -/
theorem c1_resolved_start_of_parents (recs : List TaskRecord) (g : Graph) (ps : Int)
    (m : List (String × Int)) (t : GTask)
    (hb : build recs = .ok g) (hr : resolve g ps = .ok m)
    (ht : t ∈ g.tasks) (hp : t.parents ≠ []) :
    lookupRes m t.id = some (intMax (t.parents.map (actual_end_of g))) ∧
      ps ≤ intMax (t.parents.map (actual_end_of g)) := by
  obtain ⟨hall, hdur, hm⟩ := resolve_ok_inv hr
  have hnd := build_ok_nodup hb
  have hne : ¬ t.parents.isEmpty = true := by
    simp only [List.isEmpty_iff]
    exact hp
  have hrs : resolved_start_of g ps t = intMax (t.parents.map (actual_end_of g)) := by
    unfold resolved_start_of
    rw [if_neg hne]
  constructor
  · rw [hm, lookupRes_of_nodup hnd ht, hrs]
  · rw [← hrs]
    exact ps_le_resolved_start hb hdur g.tasks.length t ht (hall t ht)

/-- Witness for C1 at the spec §8 scenario: task "4" of `recs4`. -/
theorem c1_witness :
    lookupRes m4 t4.id = some (intMax (t4.parents.map (actual_end_of g4))) ∧
      (0 : Int) ≤ intMax (t4.parents.map (actual_end_of g4)) :=
  c1_resolved_start_of_parents recs4 g4 0 m4 t4 rfl rfl (by decide) (by decide)

/-- C6: after successful resolution, every task with no parents (a root)
has a resolved start equal to the project start date — in particular for a
single root, for inputs where every task is a root, and for several
independent roots. -/
theorem c6_roots_resolve_to_project_start (recs : List TaskRecord) (g : Graph) (ps : Int)
    (m : List (String × Int)) (t : GTask)
    (hb : build recs = .ok g) (hr : resolve g ps = .ok m)
    (ht : t ∈ g.tasks) (hp : t.parents = []) :
    lookupRes m t.id = some ps := by
  obtain ⟨_, _, hm⟩ := resolve_ok_inv hr
  have hrs : resolved_start_of g ps t = ps := by
    unfold resolved_start_of
    rw [if_pos (by simp [hp])]
  rw [hm, lookupRes_of_nodup (build_ok_nodup hb) ht, hrs]

/-- Witness for C6 at the spec §8 two-root scenario: root "A" of
`recsABC` resolves to the project start day 0. -/
theorem c6_witness : lookupRes mABC tA.id = some 0 :=
  c6_roots_resolve_to_project_start recsABC gABC 0 mABC tA rfl rfl (by decide) rfl

/-- C4: the spec §8 scenario (dates as day offsets from the 2024-01-01
project start): with `recs4`, building and resolving succeed, task "4"
resolves to day 9 (= 2024-01-10, the maximum of the actual ends of "2"
and "3"), and the computed critical path is exactly ["1", "3", "4"]. -/
theorem c4_scenario :
    build recs4 = .ok g4 ∧ resolve g4 0 = .ok m4 ∧
      lookupRes m4 "4" = some 9 ∧ critical_path g4 0 = ["1", "3", "4"] :=
  ⟨rfl, rfl, rfl, rfl⟩

/-! Helper lemmas: `build` error inversions. -/

theorem build_error_unknown_inv {recs : List TaskRecord} {pid : String}
    (h : build recs = .error (.unknownPredecessor pid)) :
    firstDup [] recs = none ∧ firstUnknown recs = some pid := by
  unfold build at h
  cases hd : firstDup [] recs with
  | some i => rw [hd] at h; simp at h
  | none =>
    rw [hd] at h
    cases hu : firstUnknown recs with
    | some p =>
      rw [hu] at h
      simp only [Except.error.injEq, GanttError.unknownPredecessor.injEq] at h
      exact ⟨rfl, by rw [h]⟩
    | none =>
      rw [hu] at h
      cases hcy : cycle_check ⟨buildNodes recs⟩ with
      | some c => rw [hcy] at h; simp at h
      | none => rw [hcy] at h; simp at h

theorem firstUnknown_none_preds {recs : List TaskRecord}
    (hu : firstUnknown recs = none) :
    ∀ r ∈ recs, ∀ p ∈ parse_pred_ids r.predecessor_field, ∃ r2 ∈ recs, r2.id = p := by
  unfold firstUnknown at hu
  rw [List.findSome?_eq_none_iff] at hu
  intro r hr p hp
  have h2 := List.find?_eq_none.mp (hu r hr) p hp
  simp only [Bool.not_eq_true, Bool.not_eq_false', List.any_eq_true] at h2
  obtain ⟨q, hq, hqid⟩ := h2
  exact ⟨q, hq, by simpa using hqid⟩

/-- C5: an input record whose predecessor field is the empty string or the
literal "nan" contributes no predecessors: the sentinel parses to the
empty id list (so no id lookup is performed on it), the task constructed
for such a record has no parents, and any `UnknownPredecessorError` comes
from a record whose field is not a sentinel. -/
theorem c5_sentinel_no_predecessors :
    (parse_pred_ids "" = [] ∧ parse_pred_ids "nan" = []) ∧
    (∀ recs g r, build recs = .ok g → r ∈ recs →
      (r.predecessor_field = "" ∨ r.predecessor_field = "nan") →
      ∃ t ∈ g.tasks, t.id = r.id ∧ t.parents = []) ∧
    (∀ recs pid, build recs = .error (.unknownPredecessor pid) →
      ∃ r ∈ recs, pid ∈ parse_pred_ids r.predecessor_field ∧
        r.predecessor_field ≠ "" ∧ r.predecessor_field ≠ "nan") := by
  have hsent : ∀ s : String, s = "" ∨ s = "nan" → parse_pred_ids s = [] := by
    intro s hs
    unfold parse_pred_ids
    rw [if_pos hs]
  refine ⟨⟨hsent _ (Or.inl rfl), hsent _ (Or.inr rfl)⟩, ?_, ?_⟩
  · intro recs g r hb hr hs
    refine ⟨mkTask recs r, ?_, rfl, ?_⟩
    · rw [build_ok_tasks hb]
      exact mem_buildNodes.mpr ⟨r, hr, rfl⟩
    · show dedup_keep_first (parse_pred_ids r.predecessor_field) = []
      rw [hsent _ hs]
      rfl
  · intro recs pid h
    obtain ⟨_, hu⟩ := build_error_unknown_inv h
    obtain ⟨r, hr, hf⟩ := List.exists_of_findSome?_eq_some hu
    have hmem := List.mem_of_find?_eq_some hf
    refine ⟨r, hr, hmem, ?_, ?_⟩
    · intro he
      rw [hsent _ (Or.inl he)] at hmem
      cases hmem
    · intro he
      rw [hsent _ (Or.inr he)] at hmem
      cases hmem

/-- Witness for C5: the "nan" record of `recsSent` builds with no
parents, and building `recsZ` (one record referencing the absent id "Z")
reports an unknown predecessor stemming from its non-sentinel field. -/
theorem c5_witness :
    (∃ t ∈ (Graph.mk (buildNodes recsSent)).tasks, t.id = "X" ∧ t.parents = []) ∧
    (∃ r ∈ recsZ, "Z" ∈ parse_pred_ids r.predecessor_field ∧
      r.predecessor_field ≠ "" ∧ r.predecessor_field ≠ "nan") :=
  ⟨c5_sentinel_no_predecessors.2.1 recsSent ⟨buildNodes recsSent⟩
      ⟨"X", 3, 3, "", "nan"⟩ rfl (by decide) (Or.inr rfl)
  , c5_sentinel_no_predecessors.2.2 recsZ "Z" rfl⟩

/-- C7: during construction, a non-empty predecessor id with no matching
task makes `build` fail with `UnknownPredecessorError` naming a missing
referenced id (given unique record ids, which are checked first); a
predecessor id with a matching task yields the parent-to-child edge on
both sides; and a task's parent list is the deduplication of its parsed
predecessor list, so listing the same predecessor twice adds the edge
only once and is no error. -/
theorem c7_unknown_predecessor_and_edges :
    (∀ recs p r, firstDup [] recs = none → r ∈ recs →
        p ∈ parse_pred_ids r.predecessor_field → (∀ r2 ∈ recs, r2.id ≠ p) →
        ∃ pid, build recs = .error (.unknownPredecessor pid) ∧
          ∃ r3 ∈ recs, pid ∈ parse_pred_ids r3.predecessor_field ∧
            ∀ r4 ∈ recs, r4.id ≠ pid) ∧
    (∀ recs g r p, build recs = .ok g → r ∈ recs →
        p ∈ parse_pred_ids r.predecessor_field →
        ∃ u t, u ∈ g.tasks ∧ u.id = p ∧ t ∈ g.tasks ∧ t.id = r.id ∧
          p ∈ t.parents ∧ r.id ∈ u.children ∧
          t.parents = dedup_keep_first (parse_pred_ids r.predecessor_field)) ∧
    (∀ recs g t, build recs = .ok g → t ∈ g.tasks → t.parents.Nodup) := by
  refine ⟨?_, ?_, ?_⟩
  · intro recs p r hd hr hp hmiss
    cases hu : firstUnknown recs with
    | none =>
      exfalso
      obtain ⟨r2, hr2, hid⟩ := firstUnknown_none_preds hu r hr p hp
      exact hmiss r2 hr2 hid
    | some pid =>
      refine ⟨pid, ?_, ?_⟩
      · unfold build
        rw [hd, hu]
      · obtain ⟨r3, hr3, hf⟩ := List.exists_of_findSome?_eq_some hu
        refine ⟨r3, hr3, List.mem_of_find?_eq_some hf, ?_⟩
        have hpred := List.find?_some hf
        simp only [Bool.not_eq_true', List.any_eq_false] at hpred
        intro r4 hr4
        have := hpred r4 hr4
        simpa using this
  · intro recs g r p hb hr hp
    obtain ⟨r2, hr2, hr2id⟩ := build_ok_preds_exist hb r hr p hp
    refine ⟨mkTask recs r2, mkTask recs r, ?_, hr2id, ?_, rfl, ?_, ?_, rfl⟩
    · rw [build_ok_tasks hb]
      exact mem_buildNodes.mpr ⟨r2, hr2, rfl⟩
    · rw [build_ok_tasks hb]
      exact mem_buildNodes.mpr ⟨r, hr, rfl⟩
    · exact mem_dedup_keep_first.mpr hp
    · show r.id ∈ child_ids_for recs r2.id
      rw [hr2id]
      exact mem_child_ids_for.mpr ⟨r, hr, rfl, hp⟩
  · intro recs g t hb ht
    rw [build_ok_tasks hb] at ht
    obtain ⟨r, _, _, _, hpar, _⟩ := mem_task_parents ht
    rw [hpar]
    exact nodup_dedup_keep_first _

/-- Witness for C7: the missing reference "Z" in `recsZ` produces the
unknown-predecessor failure; in `recsDD`, where "2" lists predecessor "1"
twice, the edge exists on both sides and the parent list of the task
built for "2" is duplicate-free. -/
theorem c7_witness :
    (∃ pid, build recsZ = .error (.unknownPredecessor pid) ∧
      ∃ r3 ∈ recsZ, pid ∈ parse_pred_ids r3.predecessor_field ∧
        ∀ r4 ∈ recsZ, r4.id ≠ pid) ∧
    (∃ u t, u ∈ (Graph.mk (buildNodes recsDD)).tasks ∧ u.id = "1" ∧
      t ∈ (Graph.mk (buildNodes recsDD)).tasks ∧ t.id = "2" ∧
      "1" ∈ t.parents ∧ "2" ∈ u.children ∧
      t.parents = dedup_keep_first (parse_pred_ids "1;1")) ∧
    (⟨"2", 4, 4, "", ["1"], []⟩ : GTask).parents.Nodup :=
  ⟨c7_unknown_predecessor_and_edges.1 recsZ "Z" ⟨"A", 3, 3, "", "Z"⟩ rfl (by decide)
      (by decide) (by decide)
  , c7_unknown_predecessor_and_edges.2.1 recsDD ⟨buildNodes recsDD⟩
      ⟨"2", 4, 4, "", "1;1"⟩ "1" rfl (by decide) (by decide)
  , c7_unknown_predecessor_and_edges.2.2 recsDD ⟨buildNodes recsDD⟩
      ⟨"2", 4, 4, "", ["1"], []⟩ rfl (by decide)⟩

/-- C8: for two distinct task objects with no edge between them, attaching
B as child of A records the edge on both sides (A in B's parents, B in A's
children); the symmetric detachment leaves both sides without the other
and restores both objects exactly to their state before the attachment;
attaching an already-present edge is idempotent; and re-attaching after
detachment restores the edge exactly once. -/
theorem c8_edge_attach_detach_roundtrip (a b : TaskObj)
    (_hne : a.task_no ≠ b.task_no)
    (hc : b.task_no ∉ a.children) (hp : a.task_no ∉ b.parents) :
    (b.task_no ∈ (with_children a b).1.children ∧
     a.task_no ∈ (with_children a b).2.parents) ∧
    without_children (with_children a b).1 (with_children a b).2 = (a, b) ∧
    (b.task_no ∉ (without_children (with_children a b).1 (with_children a b).2).1.children ∧
     a.task_no ∉ (without_children (with_children a b).1 (with_children a b).2).2.parents) ∧
    with_children (with_children a b).1 (with_children a b).2 =
      ((with_children a b).1, (with_children a b).2) ∧
    with_children (without_children (with_children a b).1 (with_children a b).2).1
        (without_children (with_children a b).1 (with_children a b).2).2 =
      ((with_children a b).1, (with_children a b).2) := by
  have hcb : ¬ a.children.contains b.task_no = true := by
    intro h
    exact hc (contains_iff.mp h)
  have hpb : ¬ b.parents.contains a.task_no = true := by
    intro h
    exact hp (contains_iff.mp h)
  have h1 : with_children a b =
      ({ a with children := a.children ++ [b.task_no] },
       { b with parents := b.parents ++ [a.task_no] }) := by
    unfold with_children
    rw [if_neg hcb, if_neg hpb]
  have hec : (a.children ++ [b.task_no]).erase b.task_no = a.children := by
    rw [List.erase_append_right _ hc, List.erase_cons_head, List.append_nil]
  have hep : (b.parents ++ [a.task_no]).erase a.task_no = b.parents := by
    rw [List.erase_append_right _ hp, List.erase_cons_head, List.append_nil]
  have h2 : without_children (with_children a b).1 (with_children a b).2 = (a, b) := by
    rw [h1]
    unfold without_children
    simp only [hec, hep]
  refine ⟨⟨?_, ?_⟩, h2, ?_, ?_, ?_⟩
  · rw [h1]
    simp
  · rw [h1]
    simp
  · rw [h2]
    exact ⟨hc, hp⟩
  · have hcb2 : ((a.children ++ [b.task_no]).contains b.task_no) = true :=
      contains_iff.mpr (by simp)
    have hpb2 : ((b.parents ++ [a.task_no]).contains a.task_no) = true :=
      contains_iff.mpr (by simp)
    rw [h1]
    unfold with_children
    rw [if_pos hcb2]
    rw [if_pos hpb2]
  · rw [h2]

/-- Witness for C8: the two task objects of the repository's `test_Task`. -/
theorem c8_witness :
    (task_2.task_no ∈ (with_children task_1 task_2).1.children ∧
     task_1.task_no ∈ (with_children task_1 task_2).2.parents) ∧
    without_children (with_children task_1 task_2).1 (with_children task_1 task_2).2 =
      (task_1, task_2) ∧
    (task_2.task_no ∉
        (without_children (with_children task_1 task_2).1
          (with_children task_1 task_2).2).1.children ∧
     task_1.task_no ∉
        (without_children (with_children task_1 task_2).1
          (with_children task_1 task_2).2).2.parents) ∧
    with_children (with_children task_1 task_2).1 (with_children task_1 task_2).2 =
      ((with_children task_1 task_2).1, (with_children task_1 task_2).2) ∧
    with_children
        (without_children (with_children task_1 task_2).1
          (with_children task_1 task_2).2).1
        (without_children (with_children task_1 task_2).1
          (with_children task_1 task_2).2).2 =
      ((with_children task_1 task_2).1, (with_children task_1 task_2).2) :=
  c8_edge_attach_detach_roundtrip task_1 task_2 (by decide) (by decide) (by decide)

/-- C9: `Figure.draw` demands its required inputs up front: with no start
date set it fails with `ValueError("start_date not set")` whatever the
rendering continuation would do, with a start date but no canvas size it
fails with `ValueError("canvas_size not set")`, and any successful output
implies both inputs were set — so no partial output is produced in either
error case. -/
theorem c9_draw_requires_start_date (f : FigureState) (render : Int → Int × Int → Nat) :
    (f.start_date = none → draw f render = .error (.valueError "start_date not set")) ∧
    (f.start_date ≠ none → f.canvas_size = none →
      draw f render = .error (.valueError "canvas_size not set")) ∧
    (∀ a, draw f render = .ok a → f.start_date ≠ none ∧ f.canvas_size ≠ none) := by
  refine ⟨?_, ?_, ?_⟩
  · intro h
    unfold draw
    rw [h]
  · intro h1 h2
    unfold draw
    cases hs : f.start_date with
    | none => exact absurd hs h1
    | some sd => rw [h2]
  · intro a h
    unfold draw at h
    cases hs : f.start_date with
    | none => rw [hs] at h; cases h
    | some sd =>
      rw [hs] at h
      cases hcv : f.canvas_size with
      | none => rw [hcv] at h; cases h
      | some cs => exact ⟨by simp [hs], by simp [hcv]⟩

/-- Witness for C9: a figure with nothing set fails on the start date; one
with only a start date fails on the canvas size. -/
theorem c9_witness :
    draw ⟨none, none⟩ (fun _ _ => 0) = .error (.valueError "start_date not set") ∧
    draw ⟨some 0, none⟩ (fun _ _ => 0) = .error (.valueError "canvas_size not set") :=
  ⟨(c9_draw_requires_start_date ⟨none, none⟩ (fun _ _ => 0)).1 rfl
  , (c9_draw_requires_start_date ⟨some 0, none⟩ (fun _ _ => 0)).2.1 (by simp) rfl⟩

/-- C10: assigning a title font mutates the class-level
`RenderMetrics.title_height` to the font's point size plus 5, so every
figure whose own `render_metrics` instance never assigned `title_height`
observes the new value through the shared class state; all other
`RenderMetrics` fields are unchanged by the assignment. -/
theorem c10_title_font_mutates_class_state (cls : RenderMetricsCls) (pointSize : Int)
    (figs : List FigureModel) (fig : FigureModel)
    (_hfig : fig ∈ figs) (hfresh : fig.render_metrics.title_height = none) :
    read_title_height (set_title_font cls pointSize) fig = pointSize + 5 ∧
    (set_title_font cls pointSize).title_padding = cls.title_padding ∧
    (set_title_font cls pointSize).vertical_padding = cls.vertical_padding ∧
    (set_title_font cls pointSize).horizontal_padding = cls.horizontal_padding ∧
    (set_title_font cls pointSize).axis_width = cls.axis_width ∧
    (set_title_font cls pointSize).axis_height = cls.axis_height ∧
    (set_title_font cls pointSize).axis_padding = cls.axis_padding ∧
    (set_title_font cls pointSize).min_task_height = cls.min_task_height ∧
    (set_title_font cls pointSize).max_task_description_width =
      cls.max_task_description_width ∧
    (set_title_font cls pointSize).legend_width = cls.legend_width := by
  refine ⟨?_, rfl, rfl, rfl, rfl, rfl, rfl, rfl, rfl, rfl⟩
  unfold read_title_height set_title_font
  rw [hfresh]

/-- Witness for C10: the default class state, the 64-point title font of
`Figure.__init__`, and two independent fresh figures, the first of which
is observed. -/
theorem c10_witness :
    read_title_height (set_title_font {} 64) ⟨{}⟩ = 64 + 5 ∧
    (set_title_font {} 64).title_padding = ({} : RenderMetricsCls).title_padding ∧
    (set_title_font {} 64).vertical_padding = ({} : RenderMetricsCls).vertical_padding ∧
    (set_title_font {} 64).horizontal_padding = ({} : RenderMetricsCls).horizontal_padding ∧
    (set_title_font {} 64).axis_width = ({} : RenderMetricsCls).axis_width ∧
    (set_title_font {} 64).axis_height = ({} : RenderMetricsCls).axis_height ∧
    (set_title_font {} 64).axis_padding = ({} : RenderMetricsCls).axis_padding ∧
    (set_title_font {} 64).min_task_height = ({} : RenderMetricsCls).min_task_height ∧
    (set_title_font {} 64).max_task_description_width =
      ({} : RenderMetricsCls).max_task_description_width ∧
    (set_title_font {} 64).legend_width = ({} : RenderMetricsCls).legend_width :=
  c10_title_font_mutates_class_state {} 64 [⟨{}⟩, ⟨{}⟩] ⟨{}⟩ (by decide) rfl

/-! Helper lemmas: soundness of the depth-first cycle traversal. -/

theorem chain_reaches {g : Graph} :
    ∀ (l : List String) {a c : String},
      List.Chain (fun x y => y ∈ child_ids g x) a (l ++ [c]) → Reaches g a c := by
  intro l
  induction l with
  | nil =>
    intro a c h
    exact Reaches.step (List.chain_cons.mp h).1
  | cons b l ih =>
    intro a c h
    rw [List.cons_append, List.chain_cons] at h
    exact Reaches.trans h.1 (ih h.2)

theorem chain_mem_cycle {g : Graph} {p0 : String} {tail : List String} {id : String}
    (hch : List.Chain (fun x y => y ∈ child_ids g x) p0 (tail ++ [id]))
    (hmem : id = p0 ∨ id ∈ tail) : Reaches g id id := by
  rcases hmem with h1 | h2
  · subst h1
    exact chain_reaches tail hch
  · obtain ⟨t1, t2, ht⟩ := List.append_of_mem h2
    subst ht
    rw [List.append_assoc, List.cons_append] at hch
    have := (List.chain_split.mp hch).2
    exact chain_reaches t2 this

theorem cycle_dfs_sound {g : Graph} :
    ∀ (n : Nat) (path : List String) (id r : String),
      cycle_dfs g n path id = some r →
      (path = [] ∨ ∃ p0 tail, path = p0 :: tail ∧
        List.Chain (fun x y => y ∈ child_ids g x) p0 (tail ++ [id])) →
      Reaches g r r := by
  intro n
  induction n with
  | zero =>
    intro path id r h _
    simp [cycle_dfs] at h
  | succ n ih =>
    intro path id r h hinv
    rw [cycle_dfs] at h
    by_cases hm : path.contains id = true
    · rw [if_pos hm] at h
      have hr : id = r := by
        simpa using h
      subst hr
      rcases hinv with hempty | ⟨p0, tail, hpath, hch⟩
      · rw [hempty] at hm
        simp at hm
      · have hmm : id ∈ p0 :: tail := by
          rw [← hpath]
          exact contains_iff.mp hm
        rcases List.mem_cons.mp hmm with h1 | h2
        · exact chain_mem_cycle hch (Or.inl h1)
        · exact chain_mem_cycle hch (Or.inr h2)
    · rw [if_neg hm] at h
      obtain ⟨c, hc, hrec⟩ := List.exists_of_findSome?_eq_some h
      apply ih (path ++ [id]) c r hrec
      right
      rcases hinv with hempty | ⟨p0, tail, hpath, hch⟩
      · subst hempty
        exact ⟨id, [], rfl, List.chain_cons.mpr ⟨hc, List.Chain.nil⟩⟩
      · subst hpath
        refine ⟨p0, tail ++ [id], rfl, ?_⟩
        rw [List.append_assoc]
        exact List.chain_split.mpr ⟨hch, List.chain_cons.mpr ⟨hc, List.Chain.nil⟩⟩

theorem build_error_cyclic_inv {recs : List TaskRecord} {c : String}
    (h : build recs = .error (.cyclicDependency c)) :
    cycle_check ⟨buildNodes recs⟩ = some c := by
  unfold build at h
  cases hd : firstDup [] recs with
  | some i => rw [hd] at h; simp at h
  | none =>
    rw [hd] at h
    cases hu : firstUnknown recs with
    | some p => rw [hu] at h; simp at h
    | none =>
      rw [hu] at h
      cases hcy : cycle_check ⟨buildNodes recs⟩ with
      | some c2 =>
        rw [hcy] at h
        simp only [Except.error.injEq, GanttError.cyclicDependency.injEq] at h
        rw [h]
      | none => rw [hcy] at h; simp at h

/-- C2 (amended): building raises `CyclicDependencyError` only when a task
is reachable from itself along child edges — the depth-first check
started from the parentless tasks is sound, and the task it names lies on
a cycle; but (see the counterexample) a cycle in a component with no
parentless task escapes the check, so the error is not raised for every
cyclic input. -/
theorem c2_cycle_error_names_cycle_task (recs : List TaskRecord) (c : String)
    (h : build recs = .error (.cyclicDependency c)) :
    Reaches ⟨buildNodes recs⟩ c c := by
  have hcy := build_error_cyclic_inv h
  unfold cycle_check at hcy
  obtain ⟨rt, _, hdfs⟩ := List.exists_of_findSome?_eq_some hcy
  exact cycle_dfs_sound _ [] rt c hdfs (Or.inl rfl)

/-- Witness for C2's amended theorem: the rooted cycle `recsRAB`
(R → A → B → A) makes build fail naming "A", which indeed reaches itself. -/
theorem c2_witness : Reaches ⟨buildNodes recsRAB⟩ "A" "A" :=
  c2_cycle_error_names_cycle_task recsRAB "A" rfl

/-- Counterexample to C2 as stated: in `recsAB` the two tasks list each
other, so the parent/child relation has a cycle ("A" reaches itself along
child edges), yet — no task being parentless — the depth-first check
starts nowhere and `build` succeeds instead of raising
`CyclicDependencyError`. -/
theorem c2_counterexample :
    build recsAB = .ok ⟨buildNodes recsAB⟩ ∧ Reaches ⟨buildNodes recsAB⟩ "A" "A" :=
  ⟨rfl
  , Reaches.trans (show "B" ∈ child_ids ⟨buildNodes recsAB⟩ "A" by decide)
      (Reaches.step (show "A" ∈ child_ids ⟨buildNodes recsAB⟩ "B" by decide))⟩

/-! Helper lemmas: the longest-chain-duration computation. -/

theorem lcdFuel_stable {recs : List TaskRecord} {g : Graph} {ps : Int}
    (hb : build recs = .ok g) :
    ∀ k, ∀ t ∈ g.tasks, t.id ∈ resolvableAfter g k →
      ∀ n m, k ≤ n → k ≤ m → lcdFuel g ps n t.id = lcdFuel g ps m t.id := by
  intro k
  induction k with
  | zero =>
    intro t _ h0
    simp [resolvableAfter] at h0
  | succ k ih =>
    intro t ht hmem n m hn hm
    obtain ⟨t2, ht2, hid, hall⟩ := mem_resolvableAfter_succ.mp hmem
    have hteq : t2 = t := List.inj_on_of_nodup_map (build_ok_nodup hb) ht2 ht hid
    subst hteq
    obtain ⟨n', rfl⟩ : ∃ n', n = n' + 1 := ⟨n - 1, by omega⟩
    obtain ⟨m', rfl⟩ : ∃ m', m = m' + 1 := ⟨m - 1, by omega⟩
    have hfind := findTask_of_mem (build_ok_nodup hb) ht
    simp only [lcdFuel, hfind]
    by_cases hpe : t2.parents.isEmpty
    · simp [hpe]
    · simp only [if_neg hpe]
      congr 1
      congr 1
      apply List.map_congr_left
      intro p hp
      have hpS := hall p hp
      cases k with
      | zero => simp [resolvableAfter] at hpS
      | succ k2 =>
        obtain ⟨u, hu, huid, _⟩ := mem_resolvableAfter_succ.mp hpS
        have h1 := ih u hu (by rw [huid]; exact hpS) n' m' (by omega) (by omega)
        rwa [huid] at h1

theorem lcd_rec {recs : List TaskRecord} {g : Graph} {ps : Int}
    (hb : build recs = .ok g)
    (hallS : ∀ t ∈ g.tasks, t.id ∈ resolvableAfter g g.tasks.length) :
    ∀ t ∈ g.tasks, lcd g ps t.id =
      if t.parents.isEmpty then dur_of g ps t
      else dur_of g ps t + intMax (t.parents.map (lcd g ps)) := by
  intro t ht
  have hfind := findTask_of_mem (build_ok_nodup hb) ht
  unfold lcd
  simp only [lcdFuel, hfind]
  by_cases hpe : t.parents.isEmpty
  · simp [hpe]
  · simp only [if_neg hpe]
    congr 1
    congr 1
    apply List.map_congr_left
    intro p hp
    obtain ⟨u, hu, huid⟩ := parent_task_exists hb t ht p hp
    have h1 := @lcdFuel_stable recs g ps hb g.tasks.length u hu (hallS u hu)
      g.tasks.length (g.tasks.length + 1) (le_refl _) (by omega)
    rw [huid] at h1
    exact h1

theorem retained_spec {recs : List TaskRecord} {g : Graph} {ps : Int}
    (hb : build recs = .ok g) {t : GTask} (ht : t ∈ g.tasks) (hpe : t.parents ≠ []) :
    ∃ p, retained_parent g ps t = some p ∧ p ∈ t.parents ∧
      lcd g ps p = intMax (t.parents.map (lcd g ps)) := by
  have hmape : t.parents.map (lcd g ps) ≠ [] := by simp [hpe]
  obtain ⟨p0, hp0, hp0v⟩ := List.mem_map.mp (intMax_mem hmape)
  obtain ⟨u, hu, huid⟩ := parent_task_exists hb t ht p0 hp0
  have hne2 : ¬ t.parents.isEmpty = true := by
    simp only [List.isEmpty_iff]
    exact hpe
  unfold retained_parent
  rw [if_neg hne2]
  cases hf : ((g.tasks.filter (fun v => t.parents.contains v.id)).map (fun v => v.id)).find?
      (fun p => lcd g ps p == intMax (t.parents.map (lcd g ps))) with
  | none =>
    exfalso
    have hcand : p0 ∈ (g.tasks.filter (fun v => t.parents.contains v.id)).map
        (fun v => v.id) := by
      apply List.mem_map.mpr
      exact ⟨u, List.mem_filter.mpr ⟨hu, contains_iff.mpr (by rw [huid]; exact hp0)⟩, huid⟩
    have hnone := List.find?_eq_none.mp hf p0 hcand
    apply hnone
    simp [hp0v]
  | some p =>
    refine ⟨p, rfl, ?_, ?_⟩
    · have hmm := List.mem_of_find?_eq_some hf
      obtain ⟨v, hv, hvid⟩ := List.mem_map.mp hmm
      have hvp := (List.mem_filter.mp hv).2
      rw [← hvid]
      exact contains_iff.mp hvp
    · have := List.find?_some hf
      simpa using this

/-! Helper lemmas: chains along parent-to-child edges. -/

theorem headD_append {l l2 : List String} {d : String} (h : l ≠ []) :
    (l ++ l2).headD d = l.headD d := by
  cases l with
  | nil => exact absurd rfl h
  | cons a t => rfl

theorem path_total_append {g : Graph} {ps : Int} {l : List String} {x : String} :
    path_total g ps (l ++ [x]) = path_total g ps l + dur_of_id g ps x := by
  simp [path_total]

theorem chainB_append_singleton {g : Graph} :
    ∀ {l : List String} {x : String}, l ≠ [] →
      (chainB g (l ++ [x]) = true ↔
        chainB g l = true ∧ adjB g (l.getLastD "") x = true) := by
  intro l
  induction l with
  | nil => intro x h; exact absurd rfl h
  | cons a t ih =>
    intro x _
    cases t with
    | nil => simp [chainB]
    | cons b t2 =>
      have h2 := @ih x (by simp)
      simp only [List.cons_append, chainB, Bool.and_eq_true] at h2 ⊢
      constructor
      · rintro ⟨hab, hrest⟩
        obtain ⟨hc, hl⟩ := h2.mp hrest
        exact ⟨⟨hab, hc⟩, hl⟩
      · rintro ⟨⟨hab, hc⟩, hl⟩
        exact ⟨hab, h2.mpr ⟨hc, hl⟩⟩

/-! Helper lemmas: the reconstructed backlink chain and path optimality. -/

theorem chainFrom_spec {recs : List TaskRecord} {g : Graph} {ps : Int}
    (hb : build recs = .ok g)
    (hallS : ∀ t ∈ g.tasks, t.id ∈ resolvableAfter g g.tasks.length) :
    ∀ k, ∀ t ∈ g.tasks, t.id ∈ resolvableAfter g k → ∀ n, k ≤ n →
      chainB g (chainFrom g ps n t.id) = true ∧
      (∀ x ∈ chainFrom g ps n t.id, member_id g x = true) ∧
      chainFrom g ps n t.id ≠ [] ∧
      (chainFrom g ps n t.id).getLastD "" = t.id ∧
      is_root_id g ((chainFrom g ps n t.id).headD "") = true ∧
      path_total g ps (chainFrom g ps n t.id) = lcd g ps t.id := by
  intro k
  induction k with
  | zero =>
    intro t _ h0 _ _
    simp [resolvableAfter] at h0
  | succ k ih =>
    intro t ht hmem n hn
    obtain ⟨t2, ht2, hid, hall⟩ := mem_resolvableAfter_succ.mp hmem
    have hteq : t2 = t := List.inj_on_of_nodup_map (build_ok_nodup hb) ht2 ht hid
    subst hteq
    obtain ⟨n', rfl⟩ : ∃ n', n = n' + 1 := ⟨n - 1, by omega⟩
    have hfind := findTask_of_mem (build_ok_nodup hb) ht
    have hlcd := @lcd_rec recs g ps hb hallS t2 ht
    by_cases hpe : t2.parents.isEmpty
    · have hret : retained_parent g ps t2 = none := by
        unfold retained_parent
        rw [if_pos hpe]
      have hch : chainFrom g ps (n' + 1) t2.id = [t2.id] := by
        simp only [chainFrom, hfind, hret]
      rw [hch]
      refine ⟨rfl, ?_, by simp, rfl, ?_, ?_⟩
      · intro x hx
        have hxe : x = t2.id := by simpa using hx
        subst hxe
        simp [member_id, hfind]
      · simp [is_root_id, hfind, hpe]
      · rw [hlcd, if_pos hpe]
        simp [path_total, dur_of_id, hfind]
    · have hpne : t2.parents ≠ [] := by
        intro he
        rw [he] at hpe
        simp at hpe
      obtain ⟨p, hret, hpmem, hplcd⟩ := @retained_spec recs g ps hb t2 ht hpne
      have hch : chainFrom g ps (n' + 1) t2.id = chainFrom g ps n' p ++ [t2.id] := by
        simp only [chainFrom, hfind, hret]
      obtain ⟨u, hu, huid⟩ := parent_task_exists hb t2 ht p hpmem
      have hpmemS : u.id ∈ resolvableAfter g k := by
        rw [huid]
        exact hall p hpmem
      obtain ⟨hc1, hc2, hc3, hc4, hc5, hc6⟩ := ih u hu hpmemS n' (by omega)
      rw [huid] at hc1 hc2 hc3 hc4 hc5 hc6
      rw [hch]
      refine ⟨?_, ?_, by simp, ?_, ?_, ?_⟩
      · refine (chainB_append_singleton hc3).mpr ⟨hc1, ?_⟩
        rw [hc4]
        simp only [adjB, hfind]
        exact contains_iff.mpr hpmem
      · intro x hx
        rcases List.mem_append.mp hx with h1 | h1
        · exact hc2 x h1
        · have hxe : x = t2.id := by simpa using h1
          subst hxe
          simp [member_id, hfind]
      · exact List.getLastD_concat _ _ _
      · rw [headD_append hc3]
        exact hc5
      · rw [path_total_append, hc6, hplcd, hlcd, if_neg hpe]
        have hdur : dur_of_id g ps t2.id = dur_of g ps t2 := by
          simp [dur_of_id, hfind]
        rw [hdur]
        ring

theorem path_le_lcd {recs : List TaskRecord} {g : Graph} {ps : Int}
    (hb : build recs = .ok g)
    (hallS : ∀ t ∈ g.tasks, t.id ∈ resolvableAfter g g.tasks.length) :
    ∀ l, l ≠ [] → chainB g l = true → (∀ y ∈ l, member_id g y = true) →
      is_root_id g (l.headD "") = true →
      path_total g ps l ≤ lcd g ps (l.getLastD "") := by
  intro l
  induction l using List.reverseRecOn with
  | nil => intro h; exact absurd rfl h
  | append_singleton l' x ih =>
    intro _ hchain hmem hroot
    rcases eq_or_ne l' [] with rfl | hne
    · have hxroot : is_root_id g x = true := hroot
      unfold is_root_id at hxroot
      cases hfx : findTask g x with
      | none => rw [hfx] at hxroot; cases hxroot
      | some tx =>
        rw [hfx] at hxroot
        obtain ⟨htxmem, htxid⟩ := findTask_mem hfx
        have hlcd := @lcd_rec recs g ps hb hallS tx htxmem
        rw [htxid] at hlcd
        have hlast : ([] ++ [x]).getLastD "" = x := rfl
        rw [hlast, hlcd, if_pos hxroot]
        simp [path_total, dur_of_id, hfx]
    · obtain ⟨hcl, hadj⟩ := (chainB_append_singleton hne).mp hchain
      have hih := ih hne hcl (fun y hy => hmem y (List.mem_append_left _ hy))
        (by rw [headD_append hne] at hroot; exact hroot)
      unfold adjB at hadj
      cases hfx : findTask g x with
      | none => rw [hfx] at hadj; cases hadj
      | some tx =>
        rw [hfx] at hadj
        have hpar : l'.getLastD "" ∈ tx.parents := contains_iff.mp hadj
        obtain ⟨htxmem, htxid⟩ := findTask_mem hfx
        have hlcd := @lcd_rec recs g ps hb hallS tx htxmem
        rw [htxid] at hlcd
        have hpe : ¬ tx.parents.isEmpty = true := by
          simp only [List.isEmpty_iff]
          exact List.ne_nil_of_mem hpar
        rw [List.getLastD_concat, hlcd, if_neg hpe, path_total_append]
        have hle1 : lcd g ps (l'.getLastD "") ≤ intMax (tx.parents.map (lcd g ps)) :=
          mem_le_intMax (List.mem_map.mpr ⟨l'.getLastD "", hpar, rfl⟩)
        have hdur : dur_of_id g ps x = dur_of g ps tx := by
          simp [dur_of_id, hfx]
        rw [hdur]
        linarith

theorem leaf_exists {recs : List TaskRecord} {g : Graph}
    (hb : build recs = .ok g)
    (hallS : ∀ t ∈ g.tasks, t.id ∈ resolvableAfter g g.tasks.length)
    (hne : g.tasks ≠ []) :
    ∃ t ∈ g.tasks, t.children = [] := by
  have hex : ∃ n, ∀ t ∈ g.tasks, t.id ∈ resolvableAfter g n := ⟨g.tasks.length, hallS⟩
  have hspec := Nat.find_spec hex
  cases hfind : Nat.find hex with
  | zero =>
    rw [hfind] at hspec
    obtain ⟨t, ht⟩ := List.exists_mem_of_ne_nil g.tasks hne
    have := hspec t ht
    simp [resolvableAfter] at this
  | succ j =>
    have hmin := Nat.find_min hex (show j < Nat.find hex by rw [hfind]; omega)
    push_neg at hmin
    obtain ⟨t, ht, htj⟩ := hmin
    refine ⟨t, ht, ?_⟩
    by_contra hch
    obtain ⟨c, hc⟩ := List.exists_mem_of_ne_nil t.children hch
    obtain ⟨u, hu, huid, hupar⟩ := child_parent_link hb t ht c hc
    rw [hfind] at hspec
    have huS := hspec u hu
    obtain ⟨u2, hu2, hu2id, hall2⟩ := mem_resolvableAfter_succ.mp huS
    have hueq : u2 = u := List.inj_on_of_nodup_map (build_ok_nodup hb) hu2 hu hu2id
    subst hueq
    exact htj (hall2 t.id hupar)

/-- C3: for every successfully built and resolved nonempty graph, the
computed critical path is a root-to-leaf chain through the graph, and its
total elapsed duration is at least that of every other root-to-leaf path. -/
theorem c3_critical_path_is_longest (recs : List TaskRecord) (g : Graph) (ps : Int)
    (m : List (String × Int))
    (hb : build recs = .ok g) (hr : resolve g ps = .ok m) (hne : g.tasks ≠ []) :
    root_to_leaf g (critical_path g ps) = true ∧
      ∀ q, root_to_leaf g q = true →
        path_total g ps q ≤ path_total g ps (critical_path g ps) := by
  have hallS := (resolve_ok_inv hr).1
  obtain ⟨tl, htl, htlch⟩ := leaf_exists hb hallS hne
  have hls : tl.id ∈ leaf_ids g := by
    unfold leaf_ids
    exact List.mem_map.mpr ⟨tl, List.mem_filter.mpr ⟨htl, by simp [htlch]⟩, rfl⟩
  have hmapne : (leaf_ids g).map (lcd g ps) ≠ [] := by
    simp [List.ne_nil_of_mem hls]
  obtain ⟨l0, hl0, hl0v⟩ := List.mem_map.mp (intMax_mem hmapne)
  cases hf : (leaf_ids g).find?
      (fun id => lcd g ps id == intMax ((leaf_ids g).map (lcd g ps))) with
  | none =>
    exfalso
    have hn0 := List.find?_eq_none.mp hf l0 hl0
    apply hn0
    simp [hl0v]
  | some lf =>
    have hcp : critical_path g ps = chainFrom g ps (g.tasks.length + 1) lf := by
      unfold critical_path
      rw [hf]
    have hlfmem := List.mem_of_find?_eq_some hf
    have hlfv : lcd g ps lf = intMax ((leaf_ids g).map (lcd g ps)) := by
      simpa using List.find?_some hf
    obtain ⟨tlf, htlf1, htlf2⟩ :
        ∃ t, t ∈ g.tasks.filter (fun t => t.children.isEmpty) ∧ t.id = lf := by
      unfold leaf_ids at hlfmem
      obtain ⟨t, ht, hid⟩ := List.mem_map.mp hlfmem
      exact ⟨t, ht, hid⟩
    have htlfmem : tlf ∈ g.tasks := (List.mem_filter.mp htlf1).1
    have htlfch : tlf.children.isEmpty = true := (List.mem_filter.mp htlf1).2
    obtain ⟨hc1, hc2, hc3, hc4, hc5, hc6⟩ :=
      chainFrom_spec hb hallS g.tasks.length tlf htlfmem (hallS tlf htlfmem)
        (g.tasks.length + 1) (by omega)
    rw [htlf2] at hc1 hc2 hc3 hc4 hc5 hc6
    rw [hcp]
    constructor
    · unfold root_to_leaf
      simp only [Bool.and_eq_true]
      refine ⟨⟨⟨⟨?_, hc1⟩, ?_⟩, hc5⟩, ?_⟩
      · simp [List.isEmpty_eq_false.mpr hc3]
      · exact List.all_eq_true.mpr hc2
      · rw [hc4]
        have hftlf : findTask g lf = some tlf := by
          rw [← htlf2]
          exact findTask_of_mem (build_ok_nodup hb) htlfmem
        simp [is_leaf_id, hftlf, htlfch]
    · intro q hq
      unfold root_to_leaf at hq
      simp only [Bool.and_eq_true] at hq
      obtain ⟨⟨⟨⟨hq1, hq2⟩, hq3⟩, hq4⟩, hq5⟩ := hq
      have hqne : q ≠ [] := List.isEmpty_eq_false.mp (by simpa using hq1)
      have hlx : is_leaf_id g (q.getLastD "") = true := hq5
      unfold is_leaf_id at hlx
      cases hfx : findTask g (q.getLastD "") with
      | none => rw [hfx] at hlx; cases hlx
      | some tx =>
        rw [hfx] at hlx
        obtain ⟨htxmem, htxid⟩ := findTask_mem hfx
        have hql := @path_le_lcd recs g ps hb hallS q hqne hq2 (List.all_eq_true.mp hq3) hq4
        have hxleaf : q.getLastD "" ∈ leaf_ids g := by
          unfold leaf_ids
          exact List.mem_map.mpr ⟨tx, List.mem_filter.mpr ⟨htxmem, hlx⟩, htxid⟩
        have hle2 : lcd g ps (q.getLastD "") ≤ intMax ((leaf_ids g).map (lcd g ps)) :=
          mem_le_intMax (List.mem_map.mpr ⟨q.getLastD "", hxleaf, rfl⟩)
        rw [hc6, hlfv]
        exact le_trans hql hle2

/-- Witness for C3 at the spec §8 scenario: the critical path of `recs4`
is a root-to-leaf chain at least as long (by total duration) as the
alternative root-to-leaf path ["1", "2", "4"]. -/
theorem c3_witness :
    root_to_leaf g4 (critical_path g4 0) = true ∧
      path_total g4 0 ["1", "2", "4"] ≤ path_total g4 0 (critical_path g4 0) :=
  have h := c3_critical_path_is_longest recs4 g4 0 m4 rfl rfl (by decide)
  ⟨h.1, h.2 ["1", "2", "4"] (by decide)⟩
